import Mathlib

/-!
Verification development for the UOOM optimization service
(`apps/optimization-service/main.py`).

The service assigns delivery orders to fulfillment channels.  The core is
`ConstraintOptimizer`: it builds a 0/1 program (assignment, capacity,
delivery-time and distance constraints), scores each (order, channel) pair
with an integer-scaled weighted formula, extracts the solver's solution,
and falls back to a greedy single pass when the solver yields no solution.

Modelling conventions:
* Numeric fields use a `LinearOrderedField α` (instantiated at `ℚ` for
  concrete evaluation, `ℝ` where the trigonometric haversine is needed);
  Python `int` fields are `ℤ`.
* The transcendental haversine kernel is kept as an explicit parameter
  `hav : GeoPoint α → GeoPoint α → α` of the optimizer pipeline, so the
  pipeline stays evaluable on rationals; the real haversine itself is
  modelled separately over `ℝ` (`haversine_distance`).
* Python dicts are association lists; `dictInsert` reproduces dict
  assignment (overwrite in place, else append).
* A Python exception path is modelled by `Option`/`none`.
* The CP-SAT solver is abstract: a solution is a boolean matrix `x`
  (indexed by order id and channel id, as in the source) together with the
  predicates stating that `x` satisfies the constraints the model builder
  emitted.  Theorems about the OPTIMAL/FEASIBLE path hypothesize those
  predicates, exactly the contract the solver guarantees.
-/

set_option linter.unusedSectionVars false

namespace UOOM

/-- Python `int()` applied to a real number: truncation toward zero. -/
def pyInt {α : Type} [LinearOrderedField α] [FloorRing α] (q : α) : ℤ :=
  if 0 ≤ q then ⌊q⌋ else ⌈q⌉

/-- A `{lat, lng}` coordinate pair (`pickup_location` etc. in the source). -/
structure GeoPoint (α : Type) where
  lat : α
  lng : α
deriving DecidableEq

/-- `class Order(BaseModel)` from `main.py` (lines 59-66).  Integer fields
are `ℤ`, real fields use the field `α`. -/
structure Order (α : Type) where
  id : String
  pickup_location : GeoPoint α
  delivery_location : GeoPoint α
  priority : ℤ
  max_delivery_time : ℤ
  weight : α
  special_requirements : List String
deriving DecidableEq

/-- `class Channel(BaseModel)` from `main.py` (lines 68-77). -/
structure Channel (α : Type) where
  id : String
  capacity : ℤ
  current_load : ℤ
  cost_per_order : α
  quality_score : ℤ
  prep_time_minutes : ℤ
  location : GeoPoint α
  vehicle_type : String
  max_distance : α
deriving DecidableEq

/-- `class OptimizationRequest(BaseModel)` (lines 79-98).  The `weights`
dict is an association list (the validator only inspects its values, and
the scoring code looks keys up, so missing keys must be representable).
The free-form `constraints` dict is accepted but never consumed by the
core, so it is omitted from the model. -/
structure OptimizationRequest (α : Type) where
  orders : List (Order α)
  channels : List (Channel α)
  weights : List (String × α)
  timeout_seconds : α
deriving DecidableEq

/-- A value of the Python `metadata` dict: the source stores strings
(solver status, fallback reason) and ints (order/channel counts). -/
inductive MetaValue where
  | str : String → MetaValue
  | int : ℤ → MetaValue
deriving DecidableEq

/-- `class OptimizationResponse(BaseModel)` (lines 100-105).  The
`assignments` dict is an association list in insertion order. -/
structure OptimizationResponse (α : Type) where
  assignments : List (String × String)
  total_score : α
  solve_time_ms : ℤ
  status : String
  metadata : List (String × MetaValue)
deriving DecidableEq

/-- Python dict assignment `d[k] = v` on an association list: overwrite an
existing binding in place, otherwise append a fresh binding. -/
def dictInsert (d : List (String × String)) (k v : String) :
    List (String × String) :=
  if d.any (fun p => p.1 = k) then
    d.map (fun p => if p.1 = k then (k, v) else p)
  else d ++ [(k, v)]

/-- `sum(v.values())` over the weights dict. -/
def weights_total {α : Type} [LinearOrderedField α]
    (w : List (String × α)) : α :=
  (w.map Prod.snd).sum

/-- `OptimizationRequest.validate_weights` (lines 93-98): the request is
accepted iff `abs(total - 1.0) > 0.01` does not hold. -/
def validate_weights {α : Type} [LinearOrderedField α]
    (w : List (String × α)) : Bool :=
  decide (|weights_total w - 1| ≤ 1 / 100)

/-- The pydantic field constraints on `Order` (lines 59-66):
`priority` in 1..10, `max_delivery_time ≥ 1`, `weight ≥ 0.1`. -/
def validOrder {α : Type} [LinearOrderedField α] (o : Order α) : Bool :=
  decide (1 ≤ o.priority) && decide (o.priority ≤ 10) &&
  decide (1 ≤ o.max_delivery_time) && decide ((1 / 10 : α) ≤ o.weight)

/-- The pydantic field constraints on `Channel` (lines 68-77). -/
def validChannel {α : Type} [LinearOrderedField α] (c : Channel α) : Bool :=
  decide (1 ≤ c.capacity) && decide (0 ≤ c.current_load) &&
  decide ((0 : α) ≤ c.cost_per_order) &&
  decide (0 ≤ c.quality_score) && decide (c.quality_score ≤ 100) &&
  decide (1 ≤ c.prep_time_minutes) && decide ((1 : α) ≤ c.max_distance)

/-- The full external (pydantic) validation of an `OptimizationRequest`
(lines 79-98): non-empty lists (`min_items=1`), per-field ranges, the
weights validator, `timeout_seconds` in [0.01, 10].  A request failing
this is rejected with a 422 before the core runs. -/
def validRequest {α : Type} [LinearOrderedField α]
    (r : OptimizationRequest α) : Bool :=
  !r.orders.isEmpty && !r.channels.isEmpty &&
  r.orders.all validOrder && r.channels.all validChannel &&
  validate_weights r.weights &&
  decide ((1 / 100 : α) ≤ r.timeout_seconds) &&
  decide (r.timeout_seconds ≤ 10)

/-- `math.radians`: degrees to radians. -/
noncomputable def radians (x : ℝ) : ℝ := x * Real.pi / 180

/-- `haversine_distance` from `_calculate_distance` (lines 250-259):
great-circle distance on a sphere of radius `R = 6371` km, all
trigonometry in radians. -/
noncomputable def haversine_distance (lat1 lon1 lat2 lon2 : ℝ) : ℝ :=
  6371 *
    (2 * Real.arcsin (Real.sqrt
      (Real.sin ((radians lat2 - radians lat1) / 2) ^ 2 +
        Real.cos (radians lat1) * Real.cos (radians lat2) *
          Real.sin ((radians lon2 - radians lon1) / 2) ^ 2)))

/-- C9: the haversine distance is symmetric in its two geo points, and
the distance from a point to itself is exactly `0`. -/
theorem haversine_symm_and_refl :
    (∀ lat1 lon1 lat2 lon2 : ℝ,
      haversine_distance lat1 lon1 lat2 lon2 =
        haversine_distance lat2 lon2 lat1 lon1) ∧
    (∀ lat lon : ℝ, haversine_distance lat lon lat lon = 0) := by
  have hsin : ∀ a b : ℝ,
      Real.sin ((a - b) / 2) ^ 2 = Real.sin ((b - a) / 2) ^ 2 := by
    intro a b
    rw [show (a - b) / 2 = -((b - a) / 2) by ring, Real.sin_neg]
    ring
  constructor
  · intro lat1 lon1 lat2 lon2
    unfold haversine_distance
    rw [hsin (radians lat2) (radians lat1),
        hsin (radians lon2) (radians lon1),
        mul_comm (Real.cos (radians lat1)) (Real.cos (radians lat2))]
  · intro lat lon
    simp [haversine_distance]

section Pipeline

variable {α : Type} [LinearOrderedField α] [FloorRing α]

/-- `_calculate_distance` (lines 245-272): route distance from the
channel's home to the order's pickup plus pickup to delivery, built from
the haversine kernel `hav` (kept as a parameter so the pipeline is
evaluable over `ℚ`; over `ℝ` it is `haversine_distance`). -/
def calculate_distance (hav : GeoPoint α → GeoPoint α → α)
    (o : Order α) (c : Channel α) : α :=
  hav c.location o.pickup_location + hav o.pickup_location o.delivery_location

/-- `_calculate_delivery_time` (lines 237-243): prep time plus travel time
at an assumed 30 km/h average speed, in minutes. -/
def calculate_delivery_time (hav : GeoPoint α → GeoPoint α → α)
    (o : Order α) (c : Channel α) : α :=
  (c.prep_time_minutes : α) + calculate_distance hav o c / 30 * 60

/-- `_calculate_assignment_score` (lines 221-235).  The weights dict is
indexed at the three fixed keys; a missing key raises `KeyError` in
Python, modelled by `none`.  The final `int(weighted_score * 100)` is
Python truncation toward zero. -/
def calculate_assignment_score (hav : GeoPoint α → GeoPoint α → α)
    (o : Order α) (c : Channel α) (weights : List (String × α)) :
    Option ℤ :=
  match weights.lookup "delivery_time", weights.lookup "cost",
      weights.lookup "quality" with
  | some w_time, some w_cost, some w_quality =>
    let delivery_time := calculate_delivery_time hav o c
    let cost := c.cost_per_order
    let quality_penalty : ℤ := max 0 (100 - c.quality_score)
    let priority_factor := ((11 - o.priority : ℤ) : α) / 10
    let weighted_score :=
      (delivery_time * w_time + cost * w_cost +
        (quality_penalty : α) * w_quality) * priority_factor
    some (pyInt (weighted_score * 100))
  | _, _, _ => none

/-- `_add_assignment_constraints` (lines 190-195), read as the property a
returned solution `x` satisfies: for every order, the number of channels
(counted as entries of the channel list, as the Python `sum` does) whose
assignment variable is set equals 1. -/
def assignment_constraints_hold (orders : List (Order α))
    (channels : List (Channel α)) (x : String → String → Bool) : Prop :=
  ∀ o ∈ orders, channels.countP (fun c => x o.id c.id) = 1

/-- `_add_capacity_constraints` (lines 197-203) as a property of the
solution: per channel, at most `capacity - current_load` orders set. -/
def capacity_constraints_hold (orders : List (Order α))
    (channels : List (Channel α)) (x : String → String → Bool) : Prop :=
  ∀ c ∈ channels,
    ((orders.countP (fun o => x o.id c.id) : ℤ)) ≤ c.capacity - c.current_load

/-- `_add_delivery_time_constraints` (lines 205-211) as a property of the
solution: a pair whose estimated delivery time exceeds the order's
deadline has its variable forced to 0. -/
def delivery_time_constraints_hold (hav : GeoPoint α → GeoPoint α → α)
    (orders : List (Order α)) (channels : List (Channel α))
    (x : String → String → Bool) : Prop :=
  ∀ o ∈ orders, ∀ c ∈ channels,
    calculate_delivery_time hav o c > (o.max_delivery_time : α) →
      x o.id c.id = false

/-- `_add_distance_constraints` (lines 213-219) as a property of the
solution: a pair whose route distance exceeds the channel's maximum has
its variable forced to 0. -/
def distance_constraints_hold (hav : GeoPoint α → GeoPoint α → α)
    (orders : List (Order α)) (channels : List (Channel α))
    (x : String → String → Bool) : Prop :=
  ∀ o ∈ orders, ∀ c ∈ channels,
    calculate_distance hav o c > c.max_distance → x o.id c.id = false

/-- The result-extraction loop of `optimize_routing` (lines 155-158):
`for order: for channel: if Value(x): assignments_result[order.id] =
channel.id`, with Python dict semantics. -/
def extractAssignments (orders : List (Order α)) (channels : List (Channel α))
    (x : String → String → Bool) : List (String × String) :=
  orders.foldl
    (fun d o =>
      channels.foldl
        (fun d c => if x o.id c.id then dictInsert d o.id c.id else d) d)
    []

/-- The `total_score` accumulation of `optimize_routing` (lines 153-159):
sum of the per-pair integer scores over the set variables, in loop order.
(The `getD 0` is unreachable on the success path: a missing weights key
already raised during objective construction, see `scoresDefined`.) -/
def totalScoreLoop (hav : GeoPoint α → GeoPoint α → α)
    (orders : List (Order α)) (channels : List (Channel α))
    (weights : List (String × α)) (x : String → String → Bool) : ℤ :=
  orders.foldl
    (fun acc o =>
      channels.foldl
        (fun acc c =>
          if x o.id c.id then
            acc + (calculate_assignment_score hav o c weights).getD 0
          else acc)
        acc)
    0

/-- Whether the objective construction (lines 139-145) computes every
per-pair score without a `KeyError`; if not, `optimize_routing` raises
before solving and no `OptimizationResponse` is produced. -/
def scoresDefined (hav : GeoPoint α → GeoPoint α → α)
    (orders : List (Order α)) (channels : List (Channel α))
    (weights : List (String × α)) : Bool :=
  orders.all (fun o => channels.all
    (fun c => (calculate_assignment_score hav o c weights).isSome))

/-- The OPTIMAL/FEASIBLE branch of `optimize_routing` (lines 115-177),
given that the solver returned raw status `rawStatus` (OPTIMAL when
`optimal`) with solution `x`, and the solve took `solve_time` ms.
`none` models the exception path (`KeyError` during objective
construction), which surfaces as an HTTP 500, not a response. -/
def solverResponse (hav : GeoPoint α → GeoPoint α → α)
    (orders : List (Order α)) (channels : List (Channel α))
    (weights : List (String × α)) (x : String → String → Bool)
    (optimal : Bool) (rawStatus : ℤ) (solve_time : ℤ) :
    Option (OptimizationResponse α) :=
  if scoresDefined hav orders channels weights then
    some
      { assignments := extractAssignments orders channels x
        total_score := ((totalScoreLoop hav orders channels weights x : ℤ) : α)
        solve_time_ms := solve_time
        status := if optimal then "OPTIMAL" else "FEASIBLE"
        metadata :=
          [("solver_status", MetaValue.str (toString rawStatus)),
           ("orders_count", MetaValue.int orders.length),
           ("channels_count", MetaValue.int channels.length)] }
  else none

/-- `channel_loads = {c.id: c.current_load for c in channels}` (line 277),
as a total map on ids (Python dict comprehension: a later duplicate id
overwrites an earlier one; ids never looked up are irrelevant). -/
def initLoads (channels : List (Channel α)) : String → ℤ :=
  channels.foldl
    (fun f c => fun i => if i = c.id then c.current_load else f i)
    (fun _ => 0)

/-- The order loop of `_fallback_assignment` (lines 279-290).  State is
the assignments dict and the running `channel_loads`.  `none` models the
`IndexError` of `channels[0]` when the channel list is empty (which the
external validator rules out). -/
def fallbackLoop (channels : List (Channel α)) :
    List (Order α) → List (String × String) → (String → ℤ) →
    Option (List (String × String) × (String → ℤ))
  | [], asg, loads => some (asg, loads)
  | o :: rest, asg, loads =>
    match channels.find? (fun c => loads c.id < c.capacity) with
    | some c =>
      fallbackLoop channels rest (dictInsert asg o.id c.id)
        (fun i => if i = c.id then loads i + 1 else loads i)
    | none =>
      match channels with
      | [] => none
      | c0 :: _ => fallbackLoop channels rest (dictInsert asg o.id c0.id) loads

/-- `_fallback_assignment` (lines 274-298). -/
def fallback_assignment (orders : List (Order α))
    (channels : List (Channel α)) (solve_time : ℤ) :
    Option (OptimizationResponse α) :=
  (fallbackLoop channels orders [] (initLoads channels)).map
    (fun st =>
      { assignments := st.1
        total_score := 0
        solve_time_ms := solve_time
        status := "FALLBACK"
        metadata :=
          [("fallback_reason", MetaValue.str "Optimization solver failed")] })

/-- Modelled from the spec (§4.4, claim C3): the fallback pass as the
spec describes it — iterate orders in input order; for each order take
the first channel whose running load (seeded from `current_load`) is
strictly below its capacity and bump that load; if every channel is full,
use the first channel of the list; reachability and deadlines are not
consulted.  Produces the order→channel pairs in iteration order. -/
def specFallbackPass (channels : List (Channel α)) :
    List (Order α) → (String → ℤ) → List (String × String)
  | [], _ => []
  | o :: rest, loads =>
    match channels.find? (fun c => loads c.id < c.capacity) with
    | some c =>
      (o.id, c.id) ::
        specFallbackPass channels rest
          (fun i => if i = c.id then loads i + 1 else loads i)
    | none =>
      match channels with
      | [] => specFallbackPass channels rest loads
      | c0 :: _ => (o.id, c0.id) :: specFallbackPass channels rest loads

/-- The channel id the extraction loop records for an order: the id of
the first channel whose variable is set (under the assignment constraint
there is exactly one, so first = the unique one). -/
def chooseId (channels : List (Channel α)) (x : String → String → Bool)
    (oid : String) : String :=
  ((channels.find? (fun c => x oid c.id)).map Channel.id).getD ""

/-- Modelled from the spec (claims C4/C5 wording): the raw weighted score
`w_time · eta + w_cost · cost_per_order + w_quality · max(0, 100 −
quality_score)` times the priority factor `(11 − priority)/10`, scaled by
100 and rounded to the nearest integer.  Used to compare the claim's
`round` against the code's truncation. -/
def spec_round_score (hav : GeoPoint α → GeoPoint α → α)
    (o : Order α) (c : Channel α) (w_time w_cost w_quality : α) : ℤ :=
  round ((w_time * calculate_delivery_time hav o c +
      w_cost * c.cost_per_order +
      w_quality * max 0 (100 - (c.quality_score : α))) *
    (((11 - o.priority : ℤ) : α) / 10) * 100)

/-- Modelled from the spec (claim C5 wording): the sum, over the emitted
assignments, of the integer-scaled per-pair scores — each (order,
channel) pair of the request contributes its score exactly when the pair
`(order id, channel id)` appears in the emitted assignments map. -/
def spec_emitted_score_sum (hav : GeoPoint α → GeoPoint α → α)
    (orders : List (Order α)) (channels : List (Channel α))
    (weights : List (String × α)) (asg : List (String × String)) : ℤ :=
  (orders.map (fun o =>
    (channels.map (fun c =>
      if (o.id, c.id) ∈ asg then
        (calculate_assignment_score hav o c weights).getD 0
      else 0)).sum)).sum

/-- Rename every order id through `f` and every channel id through `g`
(possibly collapsing distinct ids); all other fields are untouched.  Used
to state that the external validator never inspects identifiers. -/
def relabelIds (f g : String → String) (r : OptimizationRequest α) :
    OptimizationRequest α :=
  { r with
    orders := r.orders.map (fun o => { o with id := f o.id })
    channels := r.channels.map (fun c => { c with id := g c.id }) }

end Pipeline

section Fixtures

/-- Shared concrete inputs (over `ℚ`) for witnesses and counterexamples. -/
def gp0 : GeoPoint ℚ := ⟨0, 0⟩

/-- A concrete haversine kernel: all fixture geo points coincide at
`(0, 0)`, where the real haversine is exactly `0`
(`haversine_symm_and_refl`), so the constant-zero kernel agrees with it. -/
def hav0 : GeoPoint ℚ → GeoPoint ℚ → ℚ := fun _ _ => 0

def o1 : Order ℚ := ⟨"o1", gp0, gp0, 1, 60, 1, []⟩

def o2 : Order ℚ := ⟨"o2", gp0, gp0, 1, 60, 1, []⟩

def c1 : Channel ℚ := ⟨"c1", 2, 0, 0, 100, 10, gp0, "standard", 50⟩

def c2 : Channel ℚ := ⟨"c2", 1, 0, 0, 100, 10, gp0, "standard", 50⟩

/-- Like `c1` but with `cost_per_order = 0.09`, making the scaled score
`502.7`: truncation and rounding disagree. -/
def cCex : Channel ℚ := ⟨"c1", 2, 0, 9 / 100, 100, 10, gp0, "standard", 50⟩

/-- The default weights dict `{delivery_time: 0.5, cost: 0.3, quality: 0.2}`. -/
def wDefault : List (String × ℚ) :=
  [("delivery_time", 1 / 2), ("cost", 3 / 10), ("quality", 1 / 5)]

/-- A weights dict summing to exactly 1.0 but missing the `quality` key. -/
def w10 : List (String × ℚ) := [("delivery_time", 1 / 2), ("cost", 1 / 2)]

/-- A concrete solver solution assigning order `o1` to channel `c1`. -/
def x1 : String → String → Bool := fun oid cid => oid = "o1" && cid = "c1"

/-- A schema-valid request whose weights dict lacks the `quality` key. -/
def r10 : OptimizationRequest ℚ := ⟨[o1], [c1], w10, 1 / 10⟩

/-- A request with two distinct orders sharing the id `"o1"`. -/
def rDup : OptimizationRequest ℚ :=
  ⟨[o1, { o2 with id := "o1" }], [c1], wDefault, 1 / 10⟩

/-- A request whose weights sum to 0.9 (outside the accepted band). -/
def rBad : OptimizationRequest ℚ :=
  ⟨[o1], [c1],
    [("delivery_time", 1 / 2), ("cost", 3 / 10), ("quality", 1 / 10)],
    1 / 10⟩

/-- The response the fallback path produces on the `o1`/`c1` fixture. -/
def rF : OptimizationResponse ℚ :=
  { assignments := [("o1", "c1")]
    total_score := 0
    solve_time_ms := 3
    status := "FALLBACK"
    metadata :=
      [("fallback_reason", MetaValue.str "Optimization solver failed")] }

/-- The response the success path produces on the `o1`/`c1` fixture. -/
def r1 : OptimizationResponse ℚ :=
  { assignments := [("o1", "c1")]
    total_score := 500
    solve_time_ms := 7
    status := "OPTIMAL"
    metadata :=
      [("solver_status", MetaValue.str "4"),
       ("orders_count", MetaValue.int 1),
       ("channels_count", MetaValue.int 1)] }

end Fixtures

section ExtractionLemmas

variable {α : Type} [LinearOrderedField α] [FloorRing α]

/-- Inserting a key nobody in the dict holds appends a fresh binding. -/
theorem dictInsert_fresh (d : List (String × String)) (k v : String)
    (h : ∀ p ∈ d, p.1 ≠ k) : dictInsert d k v = d ++ [(k, v)] := by
  unfold dictInsert
  rw [if_neg]
  simp only [List.any_eq_true, decide_eq_true_eq, not_exists]
  intro p
  by_cases hp : p ∈ d
  · simp [h p hp]
  · simp [hp]

/-- If no channel's variable is set for `oid`, the inner extraction fold
leaves the dict unchanged. -/
theorem innerFold_all_false (x : String → String → Bool) (oid : String)
    (cs : List (Channel α)) (d : List (String × String))
    (h : ∀ c ∈ cs, x oid c.id = false) :
    cs.foldl (fun d c => if x oid c.id then dictInsert d oid c.id else d) d
      = d := by
  induction cs generalizing d with
  | nil => rfl
  | cons c rest ih =>
    rw [List.foldl_cons, if_neg (by simp [h c (List.mem_cons_self c rest)])]
    exact ih d (fun c' hc' => h c' (List.mem_cons_of_mem _ hc'))

/-- If exactly one entry of the channel list has its variable set for
`oid`, and the dict does not yet bind `oid`, the inner extraction fold
appends the binding of `oid` to that channel's id. -/
theorem innerFold_one (x : String → String → Bool) (oid : String)
    (cs : List (Channel α)) (d : List (String × String))
    (hfresh : ∀ p ∈ d, p.1 ≠ oid)
    (hcount : cs.countP (fun c => x oid c.id) = 1) :
    cs.foldl (fun d c => if x oid c.id then dictInsert d oid c.id else d) d
      = d ++ [(oid, chooseId cs x oid)] := by
  induction cs generalizing d with
  | nil => simp at hcount
  | cons c rest ih =>
    by_cases hc : x oid c.id = true
    · have h0 : rest.countP (fun c => x oid c.id) = 0 := by
        simp only [List.countP_cons, hc, if_true] at hcount
        omega
      rw [List.foldl_cons, if_pos (by simp [hc]),
        innerFold_all_false x oid rest _
          (fun c' hc' => by
            have := List.countP_eq_zero.mp h0 c' hc'
            simpa using this),
        dictInsert_fresh d oid c.id hfresh]
      unfold chooseId
      rw [@List.find?_cons_of_pos _ (fun c => x oid c.id) c rest hc]
      rfl
    · have h1 : rest.countP (fun c => x oid c.id) = 1 := by
        simp only [List.countP_cons, hc, if_false] at hcount
        simpa using hcount
      rw [List.foldl_cons, if_neg (by simp [hc]), ih d hfresh h1]
      unfold chooseId
      rw [@List.find?_cons_of_neg _ (fun c => x oid c.id) c rest hc]

/-- Under the assignment constraint and unique order ids, the extraction
loop (started from any dict binding none of the order ids) appends one
binding per order, in input order, to the channel `chooseId` picks. -/
theorem extract_general (orders : List (Order α))
    (channels : List (Channel α)) (x : String → String → Bool) :
    ∀ d : List (String × String),
      (∀ o ∈ orders, channels.countP (fun c => x o.id c.id) = 1) →
      (orders.map Order.id).Nodup →
      (∀ o ∈ orders, ∀ p ∈ d, p.1 ≠ o.id) →
      orders.foldl
        (fun d o =>
          channels.foldl
            (fun d c => if x o.id c.id then dictInsert d o.id c.id else d) d)
        d
      = d ++ orders.map (fun o => (o.id, chooseId channels x o.id)) := by
  induction orders with
  | nil => intro d _ _ _; simp
  | cons o rest ih =>
    intro d hx hnd hfresh
    have hhead : o.id ∉ rest.map Order.id := by
      have := hnd
      rw [List.map_cons, List.nodup_cons] at this
      exact this.1
    rw [List.foldl_cons,
      innerFold_one x o.id channels d
        (fun p hp => hfresh o (List.mem_cons_self o rest) p hp)
        (hx o (List.mem_cons_self o rest)),
      ih (d ++ [(o.id, chooseId channels x o.id)])
        (fun o' ho' => hx o' (List.mem_cons_of_mem _ ho'))
        (by
          have := hnd
          rw [List.map_cons, List.nodup_cons] at this
          exact this.2)
        (by
          intro o' ho' p hp
          rcases List.mem_append.mp hp with hpd | hps
          · exact hfresh o' (List.mem_cons_of_mem _ ho') p hpd
          · have hpe : p = (o.id, chooseId channels x o.id) := by
              simpa using hps
            rw [hpe]
            intro hcontra
            refine hhead ?_
            rw [show o.id = o'.id from hcontra]
            exact List.mem_map_of_mem Order.id ho')]
    simp

/-- `extractAssignments` in closed form: one entry per order. -/
theorem extractAssignments_eq_map (orders : List (Order α))
    (channels : List (Channel α)) (x : String → String → Bool)
    (hx : ∀ o ∈ orders, channels.countP (fun c => x o.id c.id) = 1)
    (hnd : (orders.map Order.id).Nodup) :
    extractAssignments orders channels x
      = orders.map (fun o => (o.id, chooseId channels x o.id)) := by
  unfold extractAssignments
  rw [extract_general orders channels x [] hx hnd (by intro o _ p hp; simp at hp)]
  rfl

/-- When exactly one channel has its variable set for `oid`, `chooseId`
returns the id of a channel of the list whose variable is set. -/
theorem chooseId_spec (cs : List (Channel α)) (x : String → String → Bool)
    (oid : String) (hcount : cs.countP (fun c => x oid c.id) = 1) :
    ∃ c ∈ cs, chooseId cs x oid = c.id ∧ x oid c.id = true := by
  have hex : ∃ c ∈ cs, x oid c.id = true :=
    List.countP_pos_iff.mp (by omega)
  have hsome : (cs.find? (fun c => x oid c.id)).isSome = true :=
    List.find?_isSome.mpr hex
  obtain ⟨c, hc⟩ := Option.isSome_iff_exists.mp hsome
  exact ⟨c, List.mem_of_find?_eq_some hc, by unfold chooseId; rw [hc]; rfl,
    @List.find?_some _ (fun c => x oid c.id) c cs hc⟩

/-- Any channel of the list whose variable is set for `oid` is the one
`chooseId` names, as long as exactly one entry is set. -/
theorem chooseId_eq_of_mem (cs : List (Channel α))
    (x : String → String → Bool) (oid : String) (c : Channel α)
    (hcount : cs.countP (fun c => x oid c.id) = 1)
    (hc : c ∈ cs) (hxc : x oid c.id = true) :
    chooseId cs x oid = c.id := by
  rw [List.countP_eq_length_filter] at hcount
  obtain ⟨a, ha⟩ := List.length_eq_one.mp hcount
  obtain ⟨c', hc', hcid, hxc'⟩ := chooseId_spec cs x oid
    (by rw [List.countP_eq_length_filter, ha]; rfl)
  have hcmem : c ∈ cs.filter (fun c => x oid c.id) :=
    List.mem_filter.mpr ⟨hc, hxc⟩
  have hcmem' : c' ∈ cs.filter (fun c => x oid c.id) :=
    List.mem_filter.mpr ⟨hc', hxc'⟩
  rw [ha] at hcmem hcmem'
  have : c = a := by simpa using hcmem
  have : c' = a := by simpa using hcmem'
  rw [hcid]
  congr 1
  simp_all

/-- Membership in the extracted assignments dict coincides with the
solution variable, for well-formed requests. -/
theorem mem_extract_iff (orders : List (Order α))
    (channels : List (Channel α)) (x : String → String → Bool)
    (hx : ∀ o ∈ orders, channels.countP (fun c => x o.id c.id) = 1)
    (huo : (orders.map Order.id).Nodup)
    (huc : (channels.map Channel.id).Nodup)
    (o : Order α) (c : Channel α) (ho : o ∈ orders) (hc : c ∈ channels) :
    (o.id, c.id) ∈ extractAssignments orders channels x
      ↔ x o.id c.id = true := by
  rw [extractAssignments_eq_map orders channels x hx huo]
  constructor
  · intro hmem
    obtain ⟨o', ho', heq⟩ := List.mem_map.mp hmem
    have hid : o'.id = o.id := (Prod.mk.injEq _ _ _ _).mp heq |>.1
    have hoo : o' = o := List.inj_on_of_nodup_map huo ho' ho hid
    subst hoo
    have hch : chooseId channels x o'.id = c.id :=
      (Prod.mk.injEq _ _ _ _).mp heq |>.2
    obtain ⟨c', hc', hcid, hxc'⟩ := chooseId_spec channels x o'.id (hx o' ho')
    have : c' = c :=
      List.inj_on_of_nodup_map huc hc' hc (by rw [← hcid, hch])
    rw [← this]
    exact hxc'
  · intro hxc
    exact List.mem_map.mpr
      ⟨o, ho, by rw [chooseId_eq_of_mem channels x o.id c (hx o ho) hc hxc]⟩

end ExtractionLemmas

section PathLemmas

variable {α : Type} [LinearOrderedField α] [FloorRing α]

/-- Per-channel count of emitted assignments is bounded by the solution's
per-channel count, hence by the capacity headroom. -/
theorem count_extract_le_capacity (orders : List (Order α))
    (channels : List (Channel α)) (x : String → String → Bool)
    (hx : ∀ o ∈ orders, channels.countP (fun c => x o.id c.id) = 1)
    (huo : (orders.map Order.id).Nodup)
    (huc : (channels.map Channel.id).Nodup)
    (hcap : capacity_constraints_hold orders channels x)
    (c : Channel α) (hc : c ∈ channels) :
    (((extractAssignments orders channels x).countP
        (fun p => p.2 = c.id) : ℕ) : ℤ) ≤ c.capacity - c.current_load := by
  rw [extractAssignments_eq_map orders channels x hx huo, List.countP_map]
  have hmono : orders.countP
      ((fun p : String × String => decide (p.2 = c.id)) ∘
        (fun o => (o.id, chooseId channels x o.id)))
      ≤ orders.countP (fun o => x o.id c.id) := by
    apply List.countP_mono_left
    intro o ho hdec
    have hch : chooseId channels x o.id = c.id := by simpa using hdec
    obtain ⟨c', hc', hcid, hxc'⟩ := chooseId_spec channels x o.id (hx o ho)
    have hcc : c' = c :=
      List.inj_on_of_nodup_map huc hc' hc (by rw [← hcid, hch])
    rw [← hcc]
    exact hxc'
  refine le_trans ?_ (hcap c hc)
  exact_mod_cast hmono

/-- The fallback loop, started on a dict binding none of the (distinct)
order ids, succeeds when the channel list is non-empty and appends
exactly the pairs of the spec's single pass. -/
theorem fallbackLoop_eq_spec (channels : List (Channel α))
    (hch : channels ≠ []) :
    ∀ (orders : List (Order α)) (asg : List (String × String))
      (loads : String → ℤ),
      (orders.map Order.id).Nodup →
      (∀ o ∈ orders, ∀ p ∈ asg, p.1 ≠ o.id) →
      ∃ loads2, fallbackLoop channels orders asg loads
        = some (asg ++ specFallbackPass channels orders loads, loads2) := by
  intro orders
  induction orders with
  | nil =>
    intro asg loads _ _
    exact ⟨loads, by simp [fallbackLoop, specFallbackPass]⟩
  | cons o rest ih =>
    intro asg loads hnd hfresh
    have hhead : o.id ∉ rest.map Order.id := by
      rw [List.map_cons, List.nodup_cons] at hnd
      exact hnd.1
    have hndr : (rest.map Order.id).Nodup := by
      rw [List.map_cons, List.nodup_cons] at hnd
      exact hnd.2
    cases hfind : channels.find? (fun c => loads c.id < c.capacity) with
    | some c =>
      have hins : dictInsert asg o.id c.id = asg ++ [(o.id, c.id)] :=
        dictInsert_fresh _ _ _
          (fun p hp => hfresh o (List.mem_cons_self o rest) p hp)
      obtain ⟨l2, hl2⟩ := ih (asg ++ [(o.id, c.id)])
        (fun i => if i = c.id then loads i + 1 else loads i) hndr
        (by
          intro o' ho' p hp
          rcases List.mem_append.mp hp with hpd | hps
          · exact hfresh o' (List.mem_cons_of_mem _ ho') p hpd
          · have hpe : p = (o.id, c.id) := by simpa using hps
            rw [hpe]
            intro hcontra
            refine hhead ?_
            rw [show o.id = o'.id from hcontra]
            exact List.mem_map_of_mem Order.id ho')
      refine ⟨l2, ?_⟩
      simp only [fallbackLoop, hfind, hins, specFallbackPass]
      rw [hl2]
      simp
    | none =>
      obtain ⟨c0, cs, hcs⟩ := List.exists_cons_of_ne_nil hch
      subst hcs
      have hins : dictInsert asg o.id c0.id = asg ++ [(o.id, c0.id)] :=
        dictInsert_fresh _ _ _
          (fun p hp => hfresh o (List.mem_cons_self o rest) p hp)
      obtain ⟨l2, hl2⟩ := ih (asg ++ [(o.id, c0.id)]) loads hndr
        (by
          intro o' ho' p hp
          rcases List.mem_append.mp hp with hpd | hps
          · exact hfresh o' (List.mem_cons_of_mem _ ho') p hpd
          · have hpe : p = (o.id, c0.id) := by simpa using hps
            rw [hpe]
            intro hcontra
            refine hhead ?_
            rw [show o.id = o'.id from hcontra]
            exact List.mem_map_of_mem Order.id ho')
      refine ⟨l2, ?_⟩
      simp only [fallbackLoop, hfind, hins, specFallbackPass]
      rw [hl2]
      simp

/-- The spec's fallback pass assigns every order exactly once, in input
order. -/
theorem specFallbackPass_keys (channels : List (Channel α))
    (hch : channels ≠ []) :
    ∀ (orders : List (Order α)) (loads : String → ℤ),
      (specFallbackPass channels orders loads).map Prod.fst
        = orders.map Order.id := by
  intro orders
  induction orders with
  | nil => intro loads; simp [specFallbackPass]
  | cons o rest ih =>
    intro loads
    cases hfind : channels.find? (fun c => loads c.id < c.capacity) with
    | some c => simp [specFallbackPass, hfind, ih]
    | none =>
      obtain ⟨c0, cs, hcs⟩ := List.exists_cons_of_ne_nil hch
      subst hcs
      simp [specFallbackPass, hfind, ih]

/-- Every value the spec's fallback pass emits is the id of a channel of
the request. -/
theorem specFallbackPass_vals (channels : List (Channel α))
    (hch : channels ≠ []) :
    ∀ (orders : List (Order α)) (loads : String → ℤ),
      ∀ p ∈ specFallbackPass channels orders loads,
        ∃ c ∈ channels, p.2 = c.id := by
  intro orders
  induction orders with
  | nil => intro loads p hp; simp [specFallbackPass] at hp
  | cons o rest ih =>
    intro loads p hp
    cases hfind : channels.find? (fun c => loads c.id < c.capacity) with
    | some c =>
      rw [show specFallbackPass channels (o :: rest) loads
          = (o.id, c.id) :: specFallbackPass channels rest
              (fun i => if i = c.id then loads i + 1 else loads i) from by
        simp [specFallbackPass, hfind]] at hp
      rcases List.mem_cons.mp hp with h | h
      · exact ⟨c, List.mem_of_find?_eq_some hfind, by rw [h]⟩
      · exact ih _ p h
    | none =>
      obtain ⟨c0, cs, hcs⟩ := List.exists_cons_of_ne_nil hch
      subst hcs
      rw [show specFallbackPass (c0 :: cs) (o :: rest) loads
          = (o.id, c0.id) :: specFallbackPass (c0 :: cs) rest loads from by
        simp [specFallbackPass, hfind]] at hp
      rcases List.mem_cons.mp hp with h | h
      · exact ⟨c0, List.mem_cons_self c0 cs, by rw [h]⟩
      · exact ih _ p h

/-- `_fallback_assignment` succeeds on a non-empty channel list and its
response carries the spec pass's assignments, score 0 and FALLBACK
status. -/
theorem fallback_assignment_spec (orders : List (Order α))
    (channels : List (Channel α)) (ms : ℤ)
    (hch : channels ≠ []) (hnd : (orders.map Order.id).Nodup) :
    ∃ resp : OptimizationResponse α,
      fallback_assignment orders channels ms = some resp ∧
      resp.assignments = specFallbackPass channels orders (initLoads channels) ∧
      resp.total_score = 0 ∧ resp.solve_time_ms = ms ∧
      resp.status = "FALLBACK" ∧
      resp.metadata
        = [("fallback_reason", MetaValue.str "Optimization solver failed")] := by
  obtain ⟨l2, hl⟩ := fallbackLoop_eq_spec channels hch orders []
    (initLoads channels) hnd (by simp)
  refine ⟨{ assignments := specFallbackPass channels orders (initLoads channels)
            total_score := 0
            solve_time_ms := ms
            status := "FALLBACK"
            metadata :=
              [("fallback_reason",
                MetaValue.str "Optimization solver failed")] },
    ?_, rfl, rfl, rfl, rfl, rfl⟩
  unfold fallback_assignment
  rw [hl]
  simp

/-- Unpacking a successful `solverResponse`. -/
theorem solverResponse_eq_some (hav : GeoPoint α → GeoPoint α → α)
    (orders : List (Order α)) (channels : List (Channel α))
    (w : List (String × α)) (x : String → String → Bool)
    (opt : Bool) (rs ms : ℤ) (resp : OptimizationResponse α)
    (h : solverResponse hav orders channels w x opt rs ms = some resp) :
    scoresDefined hav orders channels w = true ∧
    resp.assignments = extractAssignments orders channels x ∧
    resp.total_score = ((totalScoreLoop hav orders channels w x : ℤ) : α) ∧
    resp.status = (if opt then "OPTIMAL" else "FEASIBLE") ∧
    resp.solve_time_ms = ms ∧
    resp.metadata
      = [("solver_status", MetaValue.str (toString rs)),
         ("orders_count", MetaValue.int orders.length),
         ("channels_count", MetaValue.int channels.length)] := by
  by_cases hs : scoresDefined hav orders channels w = true
  · rw [solverResponse, if_pos hs] at h
    have hr : resp = _ := (Option.some.inj h).symm
    subst hr
    exact ⟨hs, rfl, rfl, rfl, rfl, rfl⟩
  · rw [solverResponse, if_neg hs] at h
    exact absurd h (by simp)

/-- Folding addition is summation. -/
theorem foldl_add_eq_sum {β : Type} (l : List β) (g : β → ℤ) (a0 : ℤ) :
    l.foldl (fun a b => a + g b) a0 = a0 + (l.map g).sum := by
  induction l generalizing a0 with
  | nil => simp
  | cons b rest ih =>
    rw [List.foldl_cons, ih, List.map_cons, List.sum_cons]
    ring

/-- Folding a guarded addition is summing the guarded values. -/
theorem foldl_ite_add_eq_sum {β : Type} (l : List β) (p : β → Bool)
    (f : β → ℤ) (a0 : ℤ) :
    l.foldl (fun a b => if p b then a + f b else a) a0
      = a0 + (l.map (fun b => if p b then f b else 0)).sum := by
  have hstep : (fun (a : ℤ) b => if p b then a + f b else a)
      = fun a b => a + (if p b then f b else 0) := by
    funext a b
    by_cases hb : p b <;> simp [hb]
  rw [hstep, foldl_add_eq_sum]

/-- The `total_score` loop as a nested sum over the order/channel lists. -/
theorem totalScoreLoop_eq_sum (hav : GeoPoint α → GeoPoint α → α)
    (orders : List (Order α)) (channels : List (Channel α))
    (w : List (String × α)) (x : String → String → Bool) :
    totalScoreLoop hav orders channels w x
      = (orders.map (fun o => (channels.map (fun c =>
          if x o.id c.id then
            (calculate_assignment_score hav o c w).getD 0
          else 0)).sum)).sum := by
  unfold totalScoreLoop
  have houter : (fun (acc : ℤ) (o : Order α) =>
      channels.foldl (fun acc c =>
        if x o.id c.id then
          acc + (calculate_assignment_score hav o c w).getD 0
        else acc) acc)
      = fun acc o => acc + (channels.map (fun c =>
          if x o.id c.id then
            (calculate_assignment_score hav o c w).getD 0
          else 0)).sum := by
    funext acc o
    rw [foldl_ite_add_eq_sum]
  rw [houter, foldl_add_eq_sum]
  simp

/-- The code's `total_score` equals the spec's sum over the emitted
assignments, for well-formed requests under the assignment constraint. -/
theorem totalScoreLoop_eq_emitted (hav : GeoPoint α → GeoPoint α → α)
    (orders : List (Order α)) (channels : List (Channel α))
    (w : List (String × α)) (x : String → String → Bool)
    (hx : ∀ o ∈ orders, channels.countP (fun c => x o.id c.id) = 1)
    (huo : (orders.map Order.id).Nodup)
    (huc : (channels.map Channel.id).Nodup) :
    totalScoreLoop hav orders channels w x
      = spec_emitted_score_sum hav orders channels w
          (extractAssignments orders channels x) := by
  rw [totalScoreLoop_eq_sum]
  unfold spec_emitted_score_sum
  refine congrArg List.sum (List.map_congr_left ?_)
  intro o ho
  refine congrArg List.sum (List.map_congr_left ?_)
  intro c hc
  exact (if_congr (mem_extract_iff orders channels x hx huo huc o c ho hc)
    rfl rfl).symm

end PathLemmas

section ConcreteEvaluation

/-- The fixture pair scores `int(5.0 * 100) = 500`. -/
theorem score_o1_c1_eval :
    calculate_assignment_score hav0 o1 c1 wDefault = some 500 := by
  simp [calculate_assignment_score, calculate_delivery_time,
    calculate_distance, hav0, o1, c1, wDefault, pyInt, gp0, List.lookup]
  norm_num

/-- With `cost_per_order = 0.09` the scaled score is `502.7`; the code
truncates to `502`. -/
theorem score_o1_cCex_eval :
    calculate_assignment_score hav0 o1 cCex wDefault = some 502 := by
  simp [calculate_assignment_score, calculate_delivery_time,
    calculate_distance, hav0, o1, cCex, wDefault, pyInt, gp0, List.lookup]
  norm_num

/-- The success path on the fixture produces exactly `r1`. -/
theorem solverResponse_fixture_eval :
    solverResponse hav0 [o1] [c1] wDefault x1 true 4 7 = some r1 := by
  have hsd : scoresDefined hav0 [o1] [c1] wDefault = true := by
    simp [scoresDefined, score_o1_c1_eval]
  have hex : extractAssignments [o1] [c1] x1 = [("o1", "c1")] := by
    simp [extractAssignments, x1, dictInsert, o1, c1]
  have htl : totalScoreLoop hav0 [o1] [c1] wDefault x1 = 500 := by
    simp [totalScoreLoop, x1, score_o1_c1_eval,
      show o1.id = "o1" from rfl, show c1.id = "c1" from rfl]
  rw [solverResponse, if_pos hsd, hex, htl]
  simp [r1]
  rfl

/-- The fallback on the fixture produces exactly `rF`. -/
theorem fallback_fixture_eval :
    fallback_assignment [o1] [c1] (3 : ℤ) = some rF := by
  simp [fallback_assignment, fallbackLoop, initLoads, dictInsert, o1, c1, rF]

end ConcreteEvaluation

section Claims

variable {α : Type} [LinearOrderedField α] [FloorRing α]

/-- C1: for every well-formed request (distinct order and channel ids),
if the solver returned a solution satisfying the emitted constraints and
the success path produced a Response (status OPTIMAL or FEASIBLE), then
every emitted assignment of order `o` to channel `c` has route distance
at most `c.max_distance` and estimated delivery time at most
`o.max_delivery_time`, and every channel receives at most
`capacity - current_load` orders. -/
theorem C1_optimal_feasible_respects_constraints
    (hav : GeoPoint α → GeoPoint α → α)
    (orders : List (Order α)) (channels : List (Channel α))
    (w : List (String × α)) (x : String → String → Bool)
    (opt : Bool) (rs ms : ℤ) (resp : OptimizationResponse α)
    (huo : (orders.map Order.id).Nodup)
    (huc : (channels.map Channel.id).Nodup)
    (hx : assignment_constraints_hold orders channels x)
    (hcap : capacity_constraints_hold orders channels x)
    (hdt : delivery_time_constraints_hold hav orders channels x)
    (hdist : distance_constraints_hold hav orders channels x)
    (hresp : solverResponse hav orders channels w x opt rs ms = some resp) :
    (resp.status = "OPTIMAL" ∨ resp.status = "FEASIBLE") ∧
    (∀ o ∈ orders, ∀ c ∈ channels,
      (o.id, c.id) ∈ resp.assignments →
        calculate_distance hav o c ≤ c.max_distance ∧
        calculate_delivery_time hav o c ≤ (o.max_delivery_time : α)) ∧
    (∀ c ∈ channels,
      ((resp.assignments.countP (fun p => p.2 = c.id) : ℕ) : ℤ)
        ≤ c.capacity - c.current_load) := by
  obtain ⟨hsd, hasg, hts, hst, hms, hmd⟩ :=
    solverResponse_eq_some hav orders channels w x opt rs ms resp hresp
  refine ⟨?_, ?_, ?_⟩
  · rw [hst]
    cases opt <;> simp
  · intro o ho c hc hmem
    rw [hasg] at hmem
    have hxc : x o.id c.id = true :=
      (mem_extract_iff orders channels x hx huo huc o c ho hc).mp hmem
    constructor
    · by_contra hgt
      push_neg at hgt
      have hz := hdist o ho c hc hgt
      rw [hz] at hxc
      exact Bool.noConfusion hxc
    · by_contra hgt
      push_neg at hgt
      have hz := hdt o ho c hc hgt
      rw [hz] at hxc
      exact Bool.noConfusion hxc
  · intro c hc
    rw [hasg]
    exact count_extract_le_capacity orders channels x hx huo huc hcap c hc

/-- Witness for C1 at the concrete fixture. -/
theorem C1_witness :
    (r1.status = "OPTIMAL" ∨ r1.status = "FEASIBLE") ∧
    (∀ o ∈ [o1], ∀ c ∈ [c1],
      (o.id, c.id) ∈ r1.assignments →
        calculate_distance hav0 o c ≤ c.max_distance ∧
        calculate_delivery_time hav0 o c ≤ (o.max_delivery_time : ℚ)) ∧
    (∀ c ∈ [c1],
      ((r1.assignments.countP (fun p => p.2 = c.id) : ℕ) : ℤ)
        ≤ c.capacity - c.current_load) :=
  C1_optimal_feasible_respects_constraints hav0 [o1] [c1] wDefault x1
    true 4 7 r1
    (by simp) (by simp)
    (by simp [assignment_constraints_hold, List.countP_cons, x1, o1, c1])
    (by simp [capacity_constraints_hold, List.countP_cons, x1, o1, c1])
    (by simp [delivery_time_constraints_hold, calculate_delivery_time,
      calculate_distance, hav0, o1, c1])
    (by simp [distance_constraints_hold, calculate_distance, hav0, o1, c1])
    solverResponse_fixture_eval

/-- C2: for every well-formed request, on the OPTIMAL/FEASIBLE path and
on the FALLBACK path alike, the emitted assignments dict has exactly the
request's order ids as keys (once each, in input order, no extras) and
every value is the id of some channel of the request. -/
theorem C2_assignments_cover_orders_exactly
    (hav : GeoPoint α → GeoPoint α → α)
    (orders : List (Order α)) (channels : List (Channel α))
    (w : List (String × α)) (x : String → String → Bool)
    (opt : Bool) (rs ms ms2 : ℤ)
    (resp fresp : OptimizationResponse α)
    (huo : (orders.map Order.id).Nodup)
    (hch : channels ≠ [])
    (hx : assignment_constraints_hold orders channels x)
    (hresp : solverResponse hav orders channels w x opt rs ms = some resp)
    (hfb : fallback_assignment orders channels ms2 = some fresp) :
    resp.assignments.map Prod.fst = orders.map Order.id ∧
    (∀ p ∈ resp.assignments, ∃ c ∈ channels, p.2 = c.id) ∧
    fresp.assignments.map Prod.fst = orders.map Order.id ∧
    (∀ p ∈ fresp.assignments, ∃ c ∈ channels, p.2 = c.id) := by
  obtain ⟨hsd, hasg, _, _, _, _⟩ :=
    solverResponse_eq_some hav orders channels w x opt rs ms resp hresp
  obtain ⟨resp2, hr2, hasg2, _, _, _, _⟩ :=
    fallback_assignment_spec orders channels ms2 hch huo
  have hrespeq : resp2 = fresp := by
    rw [hr2] at hfb
    exact Option.some.inj hfb
  refine ⟨?_, ?_, ?_, ?_⟩
  · rw [hasg, extractAssignments_eq_map orders channels x hx huo,
      List.map_map]
    rfl
  · intro p hp
    rw [hasg, extractAssignments_eq_map orders channels x hx huo] at hp
    obtain ⟨o, ho, hpe⟩ := List.mem_map.mp hp
    obtain ⟨c', hc', hcid, _⟩ := chooseId_spec channels x o.id (hx o ho)
    refine ⟨c', hc', ?_⟩
    rw [← hpe]
    exact hcid
  · rw [← hrespeq, hasg2,
      specFallbackPass_keys channels hch orders (initLoads channels)]
  · intro p hp
    rw [← hrespeq, hasg2] at hp
    exact specFallbackPass_vals channels hch orders (initLoads channels) p hp

/-- Witness for C2 at the concrete fixture. -/
theorem C2_witness :
    r1.assignments.map Prod.fst = [o1].map Order.id ∧
    (∀ p ∈ r1.assignments, ∃ c ∈ [c1], p.2 = c.id) ∧
    rF.assignments.map Prod.fst = [o1].map Order.id ∧
    (∀ p ∈ rF.assignments, ∃ c ∈ [c1], p.2 = c.id) :=
  C2_assignments_cover_orders_exactly hav0 [o1] [c1] wDefault x1
    true 4 7 3 r1 rF
    (by simp) (by simp)
    (by simp [assignment_constraints_hold, List.countP_cons, x1, o1, c1])
    solverResponse_fixture_eval
    fallback_fixture_eval

/-- C3: on every request with distinct order ids and a non-empty channel
list, the fallback produces exactly the deterministic single pass the
spec describes (first channel with running load below capacity, else the
first channel; no reachability or deadline checks), with status FALLBACK
and total_score 0. -/
theorem C3_fallback_is_spec_single_pass
    (orders : List (Order α)) (channels : List (Channel α)) (ms : ℤ)
    (hch : channels ≠ []) (huo : (orders.map Order.id).Nodup) :
    ∃ resp : OptimizationResponse α,
      fallback_assignment orders channels ms = some resp ∧
      resp.assignments
        = specFallbackPass channels orders (initLoads channels) ∧
      resp.status = "FALLBACK" ∧ resp.total_score = 0 := by
  obtain ⟨resp, h1, h2, h3, _, h5, _⟩ :=
    fallback_assignment_spec orders channels ms hch huo
  exact ⟨resp, h1, h2, h5, h3⟩

/-- Witness for C3 at a two-order, two-channel fixture. -/
theorem C3_witness :
    ∃ resp : OptimizationResponse ℚ,
      fallback_assignment [o1, o2] [c2, c1] 3 = some resp ∧
      resp.assignments
        = specFallbackPass [c2, c1] [o1, o2] (initLoads [c2, c1]) ∧
      resp.status = "FALLBACK" ∧ resp.total_score = 0 :=
  C3_fallback_is_spec_single_pass [o1, o2] [c2, c1] 3
    (by simp) (by simp [o1, o2])

/-- C4 counterexample: at order `o1`, channel `cCex` (cost 0.09) and the
default weights, the scaled value is `502.7`; the code's score is the
truncation `502`, while rounding to the nearest integer gives `503`. -/
theorem C4_counterexample :
    calculate_assignment_score hav0 o1 cCex wDefault = some 502 ∧
    wDefault.lookup "delivery_time" = some (1 / 2) ∧
    wDefault.lookup "cost" = some (3 / 10) ∧
    wDefault.lookup "quality" = some (1 / 5) ∧
    spec_round_score hav0 o1 cCex (1 / 2) (3 / 10) (1 / 5) = 503 ∧
    (502 : ℤ) ≠ 503 := by
  refine ⟨score_o1_cCex_eval, rfl, rfl, rfl, ?_, by decide⟩
  simp [spec_round_score, calculate_delivery_time, calculate_distance,
    hav0, o1, cCex, gp0, round_eq]
  norm_num

/-- C4 amended: the integer score given to the solver equals
`int(raw · priority_factor · 100)` — Python truncation toward zero — of
the spec's raw formula, not its rounding to the nearest integer. -/
theorem C4_score_is_truncated_formula
    (hav : GeoPoint α → GeoPoint α → α) (o : Order α) (c : Channel α)
    (w_time w_cost w_quality : α) :
    calculate_assignment_score hav o c
        [("delivery_time", w_time), ("cost", w_cost),
          ("quality", w_quality)]
      = some (pyInt ((w_time * calculate_delivery_time hav o c +
            w_cost * c.cost_per_order +
            w_quality * max 0 (100 - (c.quality_score : α))) *
          (((11 - o.priority : ℤ) : α) / 10) * 100)) := by
  have hl : calculate_assignment_score hav o c
      [("delivery_time", w_time), ("cost", w_cost), ("quality", w_quality)]
      = some (pyInt ((calculate_delivery_time hav o c * w_time +
          c.cost_per_order * w_cost +
          ((max 0 (100 - c.quality_score) : ℤ) : α) * w_quality) *
        (((11 - o.priority : ℤ) : α) / 10) * 100)) := by
    simp [calculate_assignment_score, List.lookup]
  rw [hl]
  refine congrArg some (congrArg pyInt ?_)
  push_cast
  ring

/-- C5 counterexample: on the single-pair fixture the emitted
`total_score` is `500`, the sum of the emitted integer-scaled scores —
but the claim's value, that sum divided by 100, is `5 ≠ 500`. -/
theorem C5_counterexample :
    (solverResponse hav0 [o1] [c1] wDefault x1 true 4 7).map
        (fun r => r.total_score) = some 500 ∧
    spec_emitted_score_sum hav0 [o1] [c1] wDefault [("o1", "c1")] = 500 ∧
    (500 : ℚ) ≠ ((500 : ℤ) : ℚ) / 100 := by
  refine ⟨?_, ?_, ?_⟩
  · rw [solverResponse_fixture_eval]
    simp [r1]
  · simp [spec_emitted_score_sum, score_o1_c1_eval,
      show o1.id = "o1" from rfl, show c1.id = "c1" from rfl]
  · norm_num

/-- C5 amended: on the OPTIMAL/FEASIBLE path of a well-formed request,
`total_score` equals the sum over the emitted assignments of the same
integer-scaled per-pair scores, with no division by 100. -/
theorem C5_total_score_is_undivided_emitted_sum
    (hav : GeoPoint α → GeoPoint α → α)
    (orders : List (Order α)) (channels : List (Channel α))
    (w : List (String × α)) (x : String → String → Bool)
    (opt : Bool) (rs ms : ℤ) (resp : OptimizationResponse α)
    (huo : (orders.map Order.id).Nodup)
    (huc : (channels.map Channel.id).Nodup)
    (hx : assignment_constraints_hold orders channels x)
    (hresp : solverResponse hav orders channels w x opt rs ms = some resp) :
    resp.total_score
      = ((spec_emitted_score_sum hav orders channels w
          resp.assignments : ℤ) : α) := by
  obtain ⟨hsd, hasg, hts, _, _, _⟩ :=
    solverResponse_eq_some hav orders channels w x opt rs ms resp hresp
  rw [hts, hasg,
    totalScoreLoop_eq_emitted hav orders channels w x hx huo huc]

/-- Witness for the amended C5 at the concrete fixture. -/
theorem C5_witness :
    r1.total_score
      = ((spec_emitted_score_sum hav0 [o1] [c1] wDefault
          r1.assignments : ℤ) : ℚ) :=
  C5_total_score_is_undivided_emitted_sum hav0 [o1] [c1] wDefault x1
    true 4 7 r1
    (by simp) (by simp)
    (by simp [assignment_constraints_hold, List.countP_cons, x1, o1, c1])
    solverResponse_fixture_eval

/-- C6 counterexample: a FALLBACK response's metadata contains neither
the solver return code nor the order/channel counts. -/
theorem C6_counterexample :
    (fallback_assignment [o1] [c1] (3 : ℤ)).map (fun r =>
      (r.metadata.lookup "solver_status",
       r.metadata.lookup "orders_count",
       r.metadata.lookup "channels_count")) = some (none, none, none) := by
  rw [fallback_fixture_eval]
  simp [rF, List.lookup]

/-- C6 amended: an OPTIMAL/FEASIBLE response's metadata contains the
solver return code (as a string) and the order and channel counts; a
FALLBACK response's metadata contains (only) the fallback reason
string. -/
theorem C6_metadata_by_path
    (hav : GeoPoint α → GeoPoint α → α)
    (orders : List (Order α)) (channels : List (Channel α))
    (w : List (String × α)) (x : String → String → Bool)
    (opt : Bool) (rs ms ms2 : ℤ)
    (resp fresp : OptimizationResponse α)
    (hresp : solverResponse hav orders channels w x opt rs ms = some resp)
    (hfb : fallback_assignment orders channels ms2 = some fresp) :
    resp.metadata.lookup "solver_status"
      = some (MetaValue.str (toString rs)) ∧
    resp.metadata.lookup "orders_count"
      = some (MetaValue.int orders.length) ∧
    resp.metadata.lookup "channels_count"
      = some (MetaValue.int channels.length) ∧
    fresp.metadata.lookup "fallback_reason"
      = some (MetaValue.str "Optimization solver failed") := by
  obtain ⟨_, _, _, _, _, hmd⟩ :=
    solverResponse_eq_some hav orders channels w x opt rs ms resp hresp
  have hf : fresp.metadata
      = [("fallback_reason", MetaValue.str "Optimization solver failed")] := by
    unfold fallback_assignment at hfb
    cases hlp : fallbackLoop channels orders [] (initLoads channels) with
    | none =>
      rw [hlp] at hfb
      simp at hfb
    | some st =>
      rw [hlp] at hfb
      have := Option.some.inj (by simpa using hfb)
      rw [← this]
  rw [hmd, hf]
  refine ⟨?_, ?_, ?_, ?_⟩ <;> simp [List.lookup]

/-- Witness for the amended C6 at the concrete fixture. -/
theorem C6_witness :
    r1.metadata.lookup "solver_status"
      = some (MetaValue.str (toString (4 : ℤ))) ∧
    r1.metadata.lookup "orders_count"
      = some (MetaValue.int ([o1] : List (Order ℚ)).length) ∧
    r1.metadata.lookup "channels_count"
      = some (MetaValue.int ([c1] : List (Channel ℚ)).length) ∧
    rF.metadata.lookup "fallback_reason"
      = some (MetaValue.str "Optimization solver failed") :=
  C6_metadata_by_path hav0 [o1] [c1] wDefault x1 true 4 7 3 r1 rF
    solverResponse_fixture_eval fallback_fixture_eval

/-- C7 counterexample: a request with two orders sharing an id passes
the external validation untouched — no identifier-collision check
exists. -/
theorem C7_counterexample :
    validRequest rDup = true ∧ ¬ (rDup.orders.map Order.id).Nodup := by
  constructor
  · simp [validRequest, rDup, validOrder, validChannel, o1, o2, c1,
      validate_weights, weights_total, wDefault]
    norm_num
  · simp [rDup, o1, o2]

/-- C7 amended: the external validation never inspects identifiers —
relabelling (even collapsing) order and channel ids leaves its verdict
unchanged, so identifier collisions are not rejected and reach the
core. -/
theorem C7_validation_ignores_identifiers
    (f g : String → String) (r : OptimizationRequest α) :
    validRequest (relabelIds f g r) = validRequest r := by
  have hvo : ∀ o : Order α,
      validOrder { o with id := f o.id } = validOrder o := fun o => rfl
  have hvc : ∀ c : Channel α,
      validChannel { c with id := g c.id } = validChannel c := fun c => rfl
  have h1 : ∀ l : List (Order α),
      (l.map (fun o => { o with id := f o.id })).isEmpty = l.isEmpty := by
    intro l
    cases l <;> rfl
  have h2 : ∀ l : List (Channel α),
      (l.map (fun c => { c with id := g c.id })).isEmpty = l.isEmpty := by
    intro l
    cases l <;> rfl
  have hall1 : (validOrder ∘ fun o : Order α => { o with id := f o.id })
      = validOrder := funext fun o => hvo o
  have hall2 : (validChannel ∘ fun c : Channel α => { c with id := g c.id })
      = validChannel := funext fun c => hvc c
  simp only [validRequest, relabelIds, List.all_map, hall1, hall2, h1, h2]

/-- C8: a weights dict whose values sum outside `[0.99, 1.01]` fails the
external validation (the request is rejected before the core runs), and
one whose sum lies inside the band passes the weights validator. -/
theorem C8_weight_sum_validation
    (r : OptimizationRequest α) (w : List (String × α)) :
    ((weights_total r.weights < 99 / 100 ∨
        101 / 100 < weights_total r.weights) →
      validRequest r = false) ∧
    (99 / 100 ≤ weights_total w → weights_total w ≤ 101 / 100 →
      validate_weights w = true) := by
  constructor
  · intro h
    have hv : validate_weights r.weights = false := by
      unfold validate_weights
      rw [decide_eq_false_iff_not]
      intro hc
      rcases abs_le.mp hc with ⟨hl, hr⟩
      rcases h with h | h <;> linarith
    unfold validRequest
    rw [hv]
    simp
  · intro h1 h2
    unfold validate_weights
    rw [decide_eq_true_eq, abs_le]
    constructor <;> linarith

/-- Witness for C8: weights summing to 0.9 are rejected, the default
weights (sum 1.0) are accepted. -/
theorem C8_witness :
    validRequest rBad = false ∧ validate_weights wDefault = true := by
  constructor
  · exact (C8_weight_sum_validation rBad wDefault).1
      (Or.inl (by norm_num [weights_total, rBad]))
  · exact (C8_weight_sum_validation rBad wDefault).2
      (by norm_num [weights_total, wDefault])
      (by norm_num [weights_total, wDefault])

/-- C10: the request `r10` passes the external validation (its weights
sum to exactly 1.0) yet its weights dict lacks the `quality` key, so the
core's scoring — which indexes the dict at the three fixed keys —
raises a `KeyError` and `optimize_routing` produces no Response. -/
theorem C10_missing_weight_key_breaks_core :
    validRequest r10 = true ∧
    weights_total r10.weights = 1 ∧
    r10.weights.lookup "quality" = none ∧
    calculate_assignment_score hav0 o1 c1 r10.weights = none ∧
    solverResponse hav0 r10.orders r10.channels r10.weights x1 true 4 0
      = none := by
  have hscore : calculate_assignment_score hav0 o1 c1 w10 = none := by
    simp [calculate_assignment_score, w10, List.lookup]
  refine ⟨?_, ?_, ?_, ?_, ?_⟩
  · simp [validRequest, r10, validOrder, validChannel, o1, c1,
      validate_weights, weights_total, w10]
    norm_num
  · norm_num [weights_total, r10, w10]
  · simp [r10, w10, List.lookup]
  · simpa [r10] using hscore
  · simp [solverResponse, scoresDefined, r10, hscore]

end Claims

end UOOM
